import Mathlib

/-!
Shallow embedding of the Home Assistant mFi mPower custom integration
(custom_components/mfi_mpower), covering the parts the verification
claims refer to: the coordinator refresh timeout policy and error
mapping (update_coordinator.py), the unique-ID scheme and the identity
migration over the entity and device registries (update_coordinator.py),
the config-entry migration (init module together with version.py), the
device removal gate (init module), and the user step of the config flow
(config_flow.py together with api.py).

Registries are modelled as plain association lists: the entity registry
as a list of entries keyed by entity id and indexed by (domain,
unique_id) pairs, the device registry as a list of devices keyed by
registry id and indexed by identifier. Registry mutations always
succeed, mirroring the way the source calls the registry API. The
external device client (mfi_mpower library) is represented by the
observable outcomes the source branches on.
-/

namespace MfiMPower

/-- DEFAULT_TIMEOUT from const.py. -/
def DEFAULT_TIMEOUT : Nat := 15

/-- SLOW_SETUP_MAX_WAIT, the extended timeout the coordinator imports
from the host helper homeassistant.helpers.entity_platform; its value
there is 60 seconds. -/
def SLOW_SETUP_MAX_WAIT : Nat := 60

/-- Timeout chosen by one call of
MPowerDataUpdateCoordinator._async_update_data: the source reads
api_device.has_data and uses DEFAULT_TIMEOUT when the device already
has data and SLOW_SETUP_MAX_WAIT otherwise. -/
def refreshTimeout (hasData : Bool) : Nat :=
  if hasData then DEFAULT_TIMEOUT else SLOW_SETUP_MAX_WAIT

/-- Timeouts used by successive refresh calls. Each refresh outcome is
a Bool, true on success; a successful device refresh populates the
device data, so has_data holds from the first success on, while a
failed refresh leaves the stored data unchanged. -/
def refreshTimeouts (hasData : Bool) : List Bool → List Nat
  | [] => []
  | ok :: rest => refreshTimeout hasData :: refreshTimeouts (hasData || ok) rest

/-- Snapshot data returned by the device client: api_device.data is a
list of per-port dictionaries, modelled as association lists. -/
abbrev SnapshotData := List (List (String × String))

/-- Outcome of the api.update_device call made inside
_async_update_data. -/
inductive FetchOutcome where
  | ok (data : SnapshotData)
  | timeoutErr
  | authErr
  | connErr
  | dataErr
  deriving DecidableEq

/-- Signal propagated out of _async_update_data on failure.
timeoutError stands for the re-raised asyncio TimeoutError,
configEntryAuthFailed for ConfigEntryAuthFailed, updateFailed for
UpdateFailed. -/
inductive UpdateSignal where
  | timeoutError
  | configEntryAuthFailed
  | updateFailed
  deriving DecidableEq

/-- MPowerDataUpdateCoordinator._async_update_data. The first result
component is the returned snapshot or the raised signal; the second is
the snapshot stored on the device afterwards. The source wraps the
fetch in a timeout and maps TimeoutError to a re-raised TimeoutError,
MPowerAuthenticationError to ConfigEntryAuthFailed and any other
exception to UpdateFailed; on failure the previously stored snapshot
is untouched. -/
def asyncUpdateData (stored : Option SnapshotData) (outcome : FetchOutcome) :
    Except UpdateSignal SnapshotData × Option SnapshotData :=
  match outcome with
  | .ok d => (.ok d, some d)
  | .timeoutErr => (.error .timeoutError, stored)
  | .authErr => (.error .configEntryAuthFailed, stored)
  | .connErr => (.error .updateFailed, stored)
  | .dataErr => (.error .updateFailed, stored)

/-- State a port-level coordinator entity reads when building its
identifiers and display names: the device MAC, the LAN and WLAN MACs
of the historical pair scheme, the 1-based port number and the port
label, where the empty string stands for an unset label. -/
structure PortEntityState where
  mac : String
  lanMac : String
  wlanMac : String
  port : Nat
  label : String
  deriving DecidableEq

/-- MPowerCoordinatorEntity._create_unique_id: the base is the pair
string lanMac-wlanMac when old is set and the device MAC otherwise;
for an entity bound to an API port entity the port number is
appended. -/
def createUniqueId (s : PortEntityState) (old hasApiEntity : Bool) : String :=
  if hasApiEntity then
    (if old then s.lanMac ++ "-" ++ s.wlanMac else s.mac) ++ "-" ++ toString s.port
  else
    if old then s.lanMac ++ "-" ++ s.wlanMac else s.mac

/-- MPowerCoordinatorEntity.unique_id for a port-level entity: the new
base with the translation key appended when the key is set (the empty
string models an unset key, matching Python truthiness). -/
def entityUniqueId (s : PortEntityState) (translationKey : String) : String :=
  if translationKey ≠ "" then
    createUniqueId s false true ++ "-" ++ translationKey
  else
    createUniqueId s false true

/-- MPowerCoordinatorEntity.old_unique_id for a port-level entity. -/
def oldEntityUniqueId (s : PortEntityState) (translationKey : String) : String :=
  if translationKey ≠ "" then
    createUniqueId s true true ++ "-" ++ translationKey
  else
    createUniqueId s true true

/-- MPowerOutletSwitchEntity.old_unique_ids: the old unique ID first,
then the per-class suffixed variants from the overridden
_old_unique_ids property. The outlet switch has no translation key. -/
def outletOldUniqueIds (s : PortEntityState) : List String :=
  [oldEntityUniqueId s ""]
    ++ [createUniqueId s true true ++ "-switch", createUniqueId s true true ++ "-outlet"]

/-- MPowerCoordinatorEntity.device_name for a port-level entity: the
label when set, otherwise the generated port name. -/
def deviceName (s : PortEntityState) : String :=
  if s.label ≠ "" then s.label else "Port " ++ toString s.port

/-- Entry of the entity registry: entity id, domain and unique ID. The
platform component of the registry index is always the integration
domain and is omitted. -/
structure RegEntry where
  eid : String
  dom : String
  uid : String
  deriving DecidableEq

/-- EntityRegistry.async_get_entity_id restricted to this integration:
the entity id of the first entry carrying the given domain and unique
ID. -/
def getEntityId (reg : List RegEntry) (dom uid : String) : Option String :=
  (reg.find? (fun x => x.dom == dom && x.uid == uid)).map (fun x => x.eid)

/-- EntityRegistry.async_update_entity with a new unique ID: rewrites
the unique ID of the entry with the given entity id. -/
def updateEntity (reg : List RegEntry) (eid uid : String) : List RegEntry :=
  reg.map (fun x => if x.eid == eid then ⟨x.eid, x.dom, uid⟩ else x)

/-- Entry of the device registry: registry id and the identifier under
the integration domain. -/
structure DevEntry where
  did : String
  devIdent : String
  deriving DecidableEq

/-- DeviceRegistry.async_get_device for a single identifier under the
integration domain. -/
def getDevice (dreg : List DevEntry) (devIdent : String) : Option DevEntry :=
  dreg.find? (fun d => d.devIdent == devIdent)

/-- DeviceRegistry.async_remove_device. -/
def removeDevice (dreg : List DevEntry) (did : String) : List DevEntry :=
  dreg.filter (fun d => d.did != did)

/-- Data of one freshly constructed coordinator entity as consumed by
the identity migration: its domain, current unique ID, the historical
unique-ID candidates in order, the historical device identifiers, and
the current device identifier from device_info. -/
structure MigEntity where
  dom : String
  uid : String
  olds : List String
  oldDevs : List String
  devId : String
  deriving DecidableEq

/-- Registry state threaded through the migration, together with the
log of conflicts reported by the duplicate-entity error message; a log
item is the pair of the current and the historical unique ID. -/
structure RegState where
  ereg : List RegEntry
  dreg : List DevEntry
  log : List (String × String)
  deriving DecidableEq

/-- Candidate loop of async_migrate_old_entity_unique_ids for one
entity. entityId is the lookup of the current unique ID made once
before the loop; it is not refreshed inside the loop, exactly as in the
source. On a match the entry is renamed when entityId was empty,
otherwise a conflict is logged. -/
def migrateOlds (dom uid : String) (entityId : Option String) :
    List String → List RegEntry → List (String × String) →
      List RegEntry × List (String × String)
  | [], reg, log => (reg, log)
  | c :: cs, reg, log =>
    match getEntityId reg dom c with
    | none => migrateOlds dom uid entityId cs reg log
    | some oldEid =>
      match entityId with
      | some _ => migrateOlds dom uid entityId cs reg (log ++ [(uid, c)])
      | none => migrateOlds dom uid entityId cs (updateEntity reg oldEid uid) log

/-- Device loop of async_migrate_old_entity_unique_ids for one entity:
every historical device identifier still present in the device registry
is removed, with no further condition. -/
def removeOldDevs : List String → List DevEntry → List DevEntry
  | [], dreg => dreg
  | oldId :: rest, dreg =>
    match getDevice dreg oldId with
    | none => removeOldDevs rest dreg
    | some d => removeOldDevs rest (removeDevice dreg d.did)

/-- Processing of one entity by async_migrate_old_entity_unique_ids:
the current unique ID is looked up once, then the candidate loop and
the device loop run. -/
def migrateEntity (st : RegState) (e : MigEntity) : RegState :=
  let entityId := getEntityId st.ereg e.dom e.uid
  let p := migrateOlds e.dom e.uid entityId e.olds st.ereg st.log
  ⟨p.1, removeOldDevs e.oldDevs st.dreg, p.2⟩

/-- MPowerDataUpdateCoordinator.async_migrate_old_entity_unique_ids:
the entity list is processed in order over the registry state. -/
def migrateOldEntityUniqueIds (entities : List MigEntity) (st : RegState) : RegState :=
  entities.foldl migrateEntity st

/-- Entity ids of an entity registry, in order. -/
def eidsOf (reg : List RegEntry) : List String :=
  reg.map RegEntry.eid

/-- Device identifiers of a device registry, in order. -/
def identsOf (dreg : List DevEntry) : List String :=
  dreg.map DevEntry.devIdent

/-- Device registry ids of a device registry, in order. -/
def didsOf (dreg : List DevEntry) : List String :=
  dreg.map DevEntry.did

/-- Historical device identifiers referenced by an entity list. -/
def oldDevsOf (entities : List MigEntity) : List String :=
  entities.flatMap MigEntity.oldDevs

/-- Evolution relation used to track registry entries across migration
steps: an entry keeps its entity id and domain, and its unique ID is
either unchanged or one of the current unique IDs in U that renames
assign. -/
def EvolR (U : List String) (x y : RegEntry) : Prop :=
  y.eid = x.eid ∧ y.dom = x.dom ∧ (y.uid = x.uid ∨ y.uid ∈ U)

/-- Version pair from version.py; comparison is the lexicographic
order of the underlying NamedTuple. -/
structure ConfVersion where
  major : Nat
  minor : Nat
  deriving DecidableEq

/-- Lexicographic strict order on version pairs, as produced by tuple
comparison on the NamedTuple. -/
def vlt (a b : ConfVersion) : Bool :=
  decide (a.major < b.major ∨ (a.major = b.major ∧ a.minor < b.minor))

/-- CONFIG_VERSION of the integration. -/
def CONFIG_VERSION : ConfVersion := ⟨1, 2⟩

/-- CONF_SSL key name. -/
def CONF_SSL : String := "ssl"

/-- CONF_VERIFY_SSL key name. -/
def CONF_VERIFY_SSL : String := "verify_ssl"

/-- Config entry record as read and written by async_migrate_entry. -/
structure ConfigEntry where
  version : ConfVersion
  uniqueId : Option String
  title : String
  data : List (String × String)
  options : List (String × String)
  deriving DecidableEq

/-- Removal of the listed keys from a config mapping, modelling
dict.pop of the deprecated SSL options. -/
def popKeys (d : List (String × String)) (keys : List String) : List (String × String) :=
  d.filter (fun kv => !(keys.contains kv.1))

/-- The async_migrate_entry function. A some result models returning
True after updating the entry to the returned record; none models
returning False with the entry left untouched. Downgrades from a
future version return False. For versions below 1.2 the source calls
the async factory api.create_device without await, so api_device is a
coroutine object and the following api_device.refresh attribute access
raises AttributeError before any device communication; the broad
except handler logs and returns False, making this branch return False
unconditionally. The code that would set the MAC unique ID and pop the
deprecated SSL options (modelled by popKeys) is unreachable. An entry
already at the current version is re-stamped and True is returned. -/
def asyncMigrateEntry (entry : ConfigEntry) : Option ConfigEntry :=
  if vlt CONFIG_VERSION entry.version then
    none
  else if vlt entry.version ⟨1, 2⟩ then
    none
  else
    some ⟨CONFIG_VERSION, entry.uniqueId, entry.title, entry.data, entry.options⟩

/-- Entity registry entry as read by async_remove_config_entry_device:
only the linked device registry id matters, none when the entry is not
linked to a device. -/
structure EntityDevLink where
  entityId : String
  deviceId : Option String
  deriving DecidableEq

/-- The async_remove_config_entry_device function: removal is allowed
exactly when no entity registry entry links to the device registry id.
The source only reads the registry and returns a Bool. -/
def asyncRemoveConfigEntryDevice (entries : List EntityDevLink)
    (deviceEntryId : String) : Bool :=
  !(entries.any (fun e => e.deviceId == some deviceEntryId))

/-- Outcome of the validation performed by api.create_device_for_flow:
device construction may raise, the connect call may raise a connection
error, an authentication error or any other exception, or succeed. -/
inductive FlowValidation where
  | createError
  | connectConnError
  | connectAuthError
  | connectOtherError
  | connected (hasData : Bool)
  deriving DecidableEq

/-- The api.create_device_for_flow function: first result is the device
(represented by its has_data flag) when one is returned, second is the
error string. The success path of the source returns the string
"debug" in the error position. -/
def createDeviceForFlow : FlowValidation → Option Bool × Option String
  | .createError => (none, some "input_error")
  | .connectConnError => (none, some "cannot_connect")
  | .connectAuthError => (none, some "invalid_auth")
  | .connectOtherError => (none, some "unknown")
  | .connected h => (some h, some "debug")

/-- Result of one submission of the user config-flow step. -/
inductive FlowResult where
  | createEntry
  | showForm (err : Option String)
  deriving DecidableEq

/-- MPowerConfigFlow.async_step_user on a submission: the entry is
created only when the validation reported no error, a device was
returned and the device has data; with an empty error but no usable
device the error becomes unknown; otherwise the form is shown again
with the reported error. -/
def asyncStepUser (v : FlowValidation) : FlowResult :=
  let p := createDeviceForFlow v
  match p.2, p.1 with
  | none, some true => .createEntry
  | none, _ => .showForm (some "unknown")
  | some e, _ => .showForm (some e)

theorem refreshTimeouts_length (hasData : Bool) (outcomes : List Bool) :
    (refreshTimeouts hasData outcomes).length = outcomes.length := by
  induction outcomes generalizing hasData with
  | nil => rfl
  | cons o os ih => simp [refreshTimeouts, ih]

/-- C3 (amended): a refresh uses the short DEFAULT_TIMEOUT exactly when
the device already has data at that point, that is when the device held
data initially or some earlier refresh in the sequence succeeded; in
every other case, including every refresh following only failed ones,
the extended SLOW_SETUP_MAX_WAIT is used again. -/
theorem refresh_timeout_policy (hasData : Bool) (outcomes : List Bool) (i : Nat)
    (h : i < (refreshTimeouts hasData outcomes).length) :
    (refreshTimeouts hasData outcomes).get ⟨i, h⟩ =
      if hasData || (outcomes.take i).any id then DEFAULT_TIMEOUT
      else SLOW_SETUP_MAX_WAIT := by
  induction outcomes generalizing hasData i with
  | nil => simp [refreshTimeouts] at h
  | cons o os ih =>
    cases i with
    | zero => simp [refreshTimeouts, refreshTimeout]
    | succ n =>
      have hn : n < (refreshTimeouts (hasData || o) os).length := by
        have := h
        simpa [refreshTimeouts] using this
      have hget : (refreshTimeouts hasData (o :: os)).get ⟨n + 1, h⟩
          = (refreshTimeouts (hasData || o) os).get ⟨n, hn⟩ := rfl
      rw [hget, ih]
      simp [Bool.or_assoc]

/-- C3 counterexample: with no data yet, a failed first refresh is
followed by a second refresh that again uses the extended timeout,
whereas the claim requires every refresh after the first to use the
standard short timeout. -/
theorem refresh_timeout_second_slow :
    refreshTimeouts false [false, false]
      = [SLOW_SETUP_MAX_WAIT, SLOW_SETUP_MAX_WAIT]
    ∧ SLOW_SETUP_MAX_WAIT ≠ DEFAULT_TIMEOUT := by
  exact ⟨rfl, by decide⟩

/-- Witness for refresh_timeout_policy at a concrete input. -/
theorem refresh_timeout_policy_witness :
    (refreshTimeouts false [true, false]).get ⟨1, by decide⟩ = DEFAULT_TIMEOUT := by
  rw [refresh_timeout_policy false [true, false] 1 (by decide)]
  decide

/-- C4: the registry unique ID of a port-level entity depends only on
the device MAC, the port number and the translation key; two entity
states agreeing on MAC and port produce the same unique ID whatever
their labels or other fields are. -/
theorem unique_id_label_independent (a b : PortEntityState) (translationKey : String)
    (hmac : a.mac = b.mac) (hport : a.port = b.port) :
    entityUniqueId a translationKey = entityUniqueId b translationKey := by
  simp [entityUniqueId, createUniqueId, hmac, hport]

/-- Witness for unique_id_label_independent: the spec example, port 3
of device AA:BB:CC:DD:EE:FF renamed from no label to Router, keeps
unique ID AA:BB:CC:DD:EE:FF-3 while the displayed device name becomes
Router. -/
theorem unique_id_label_independent_witness :
    entityUniqueId ⟨"AA:BB:CC:DD:EE:FF", "L", "W", 3, ""⟩ ""
      = entityUniqueId ⟨"AA:BB:CC:DD:EE:FF", "L", "W", 3, "Router"⟩ ""
    ∧ entityUniqueId ⟨"AA:BB:CC:DD:EE:FF", "L", "W", 3, "Router"⟩ ""
      = "AA:BB:CC:DD:EE:FF-3"
    ∧ deviceName ⟨"AA:BB:CC:DD:EE:FF", "L", "W", 3, "Router"⟩ = "Router" :=
  ⟨unique_id_label_independent _ _ _ rfl rfl, rfl, rfl⟩

/-- C7 (amended): on failure the coordinator raises
ConfigEntryAuthFailed for an authentication error, re-raises the
TimeoutError for a timeout, and raises UpdateFailed for a connection
error or malformed data; in every failure case the stored snapshot is
unchanged. -/
theorem update_data_error_mapping (stored : Option SnapshotData) :
    asyncUpdateData stored .authErr = (.error .configEntryAuthFailed, stored)
    ∧ asyncUpdateData stored .timeoutErr = (.error .timeoutError, stored)
    ∧ asyncUpdateData stored .connErr = (.error .updateFailed, stored)
    ∧ asyncUpdateData stored .dataErr = (.error .updateFailed, stored) :=
  ⟨rfl, rfl, rfl, rfl⟩

/-- C7 counterexample: a timeout does not raise UpdateFailed; the
source re-raises the TimeoutError before the generic handler. -/
theorem update_data_timeout_not_update_failed :
    (asyncUpdateData (some [[("output", "1")]]) FetchOutcome.timeoutErr).1
      = Except.error UpdateSignal.timeoutError
    ∧ UpdateSignal.timeoutError ≠ UpdateSignal.updateFailed :=
  ⟨rfl, by decide⟩

/-- C8: evaluation of the user config-flow step. The error branches
report input_error, cannot_connect and invalid_auth as the claim
states, but a fully successful validation re-shows the form with the
error string debug instead of creating the entry, because
create_device_for_flow returns the string debug in its error position
on success; the entry-creation branch is unreachable. -/
theorem config_flow_success_shows_debug_error :
    asyncStepUser (.connected true) = .showForm (some "debug")
    ∧ asyncStepUser .createError = .showForm (some "input_error")
    ∧ asyncStepUser .connectConnError = .showForm (some "cannot_connect")
    ∧ asyncStepUser .connectAuthError = .showForm (some "invalid_auth")
    ∧ asyncStepUser (.connected true) ≠ .createEntry :=
  ⟨rfl, rfl, rfl, rfl, by decide⟩

/-- C9: evaluation of async_migrate_entry at the failing input. An
entry with version 1.1 is strictly older than the current version pair
1.2, yet the function returns False with the entry untouched: the
source calls the async factory api.create_device without await, so
api_device.refresh raises AttributeError and the broad except handler
returns False for every entry below 1.2, whatever the device state.
No older entry is ever migrated forward, contradicting the claim and
the spec. -/
theorem migrate_entry_old_never_migrates :
    vlt (ConfVersion.mk 1 1) CONFIG_VERSION = true
    ∧ asyncMigrateEntry ⟨⟨1, 1⟩, none, "t", [("ssl", "x"), ("host", "h")], []⟩
        = none :=
  ⟨by decide, rfl⟩

/-- C10: removal of a device entry is permitted exactly when no entity
registry entry links to its registry id; the source only reads the
registry. -/
theorem remove_device_orphan_iff (entries : List EntityDevLink)
    (deviceEntryId : String) :
    asyncRemoveConfigEntryDevice entries deviceEntryId = true
      ↔ ∀ e ∈ entries, e.deviceId ≠ some deviceEntryId := by
  simp [asyncRemoveConfigEntryDevice]

theorem getEntityId_eq_none {reg : List RegEntry} {dom uid : String} :
    getEntityId reg dom uid = none ↔ ∀ x ∈ reg, ¬(x.dom = dom ∧ x.uid = uid) := by
  simp [getEntityId, List.find?_eq_none, not_and]

theorem getEntityId_eq_some {reg : List RegEntry} {dom uid e : String}
    (h : getEntityId reg dom uid = some e) :
    ∃ x ∈ reg, x.eid = e ∧ x.dom = dom ∧ x.uid = uid := by
  unfold getEntityId at h
  rw [Option.map_eq_some'] at h
  obtain ⟨x, hfind, hx⟩ := h
  have hmem := List.mem_of_find?_eq_some hfind
  have hp := List.find?_some hfind
  simp only [Bool.and_eq_true, beq_iff_eq] at hp
  exact ⟨x, hmem, hx, hp.1, hp.2⟩

theorem getEntityId_ne_none_of_mem {reg : List RegEntry} {x : RegEntry}
    (hx : x ∈ reg) {dom uid : String} (hdom : x.dom = dom) (huid : x.uid = uid) :
    getEntityId reg dom uid ≠ none := by
  intro h
  exact (getEntityId_eq_none.mp h) x hx ⟨hdom, huid⟩

theorem eidsOf_updateEntity (reg : List RegEntry) (e u : String) :
    eidsOf (updateEntity reg e u) = eidsOf reg := by
  unfold eidsOf updateEntity
  rw [List.map_map]
  apply List.map_congr_left
  intro x _
  by_cases hx : x.eid = e <;> simp [hx]

theorem mem_updateEntity_of_ne {reg : List RegEntry} {x : RegEntry}
    (hx : x ∈ reg) {e : String} (hne : x.eid ≠ e) (u : String) :
    x ∈ updateEntity reg e u := by
  unfold updateEntity
  have hmap := List.mem_map_of_mem
    (fun y : RegEntry => if y.eid == e then (⟨y.eid, y.dom, u⟩ : RegEntry) else y) hx
  simpa [hne] using hmap

theorem target_mem_updateEntity {reg : List RegEntry} {dom c e : String}
    (h : getEntityId reg dom c = some e) (u : String) :
    (⟨e, dom, u⟩ : RegEntry) ∈ updateEntity reg e u := by
  obtain ⟨z, hz, hze, hzd, _⟩ := getEntityId_eq_some h
  unfold updateEntity
  have hmap := List.mem_map_of_mem
    (fun y : RegEntry => if y.eid == e then (⟨y.eid, y.dom, u⟩ : RegEntry) else y) hz
  simpa [hze, hzd] using hmap

theorem pres_uid_updateEntity {reg : List RegEntry} {x : RegEntry}
    (hx : x ∈ reg) {dom u : String} (hdom : x.dom = dom) (huid : x.uid = u)
    (e : String) :
    ∃ y ∈ updateEntity reg e u, y.dom = dom ∧ y.uid = u := by
  unfold updateEntity
  refine ⟨_, List.mem_map_of_mem _ hx, ?_⟩
  by_cases hc : x.eid = e <;> simp [hc, hdom, huid]

theorem eid_injOn {reg : List RegEntry} (hn : (eidsOf reg).Nodup)
    {x y : RegEntry} (hx : x ∈ reg) (hy : y ∈ reg) (hxy : x.eid = y.eid) : x = y :=
  List.inj_on_of_nodup_map hn hx hy hxy

theorem migrateOlds_fst_blocked (dom uid i : String) :
    ∀ (cs : List String) (reg : List RegEntry) (log : List (String × String)),
      (migrateOlds dom uid (some i) cs reg log).1 = reg := by
  intro cs
  induction cs with
  | nil => intro reg log; rfl
  | cons c cs ih =>
    intro reg log
    simp only [migrateOlds]
    split
    · exact ih reg log
    · exact ih reg (log ++ [(uid, c)])

theorem migrateOlds_log_mono (dom uid : String) (b : Option String) :
    ∀ (cs : List String) (reg : List RegEntry) (log : List (String × String))
      {x : String × String}, x ∈ log → x ∈ (migrateOlds dom uid b cs reg log).2 := by
  intro cs
  induction cs with
  | nil => intro reg log x hx; exact hx
  | cons c cs ih =>
    intro reg log x hx
    simp only [migrateOlds]
    split
    · exact ih reg log hx
    · match b with
      | some _ => exact ih reg (log ++ [(uid, c)]) (List.mem_append_left _ hx)
      | none => exact ih _ log hx

theorem migrateOlds_log_conflict (dom uid i : String) :
    ∀ (cs : List String) (reg : List RegEntry) (log : List (String × String))
      {c : String}, c ∈ cs → getEntityId reg dom c ≠ none →
      (uid, c) ∈ (migrateOlds dom uid (some i) cs reg log).2 := by
  intro cs
  induction cs with
  | nil => intro reg log c hc; exact absurd hc (List.not_mem_nil c)
  | cons c' cs ih =>
    intro reg log c hc hne
    rcases List.mem_cons.mp hc with hceq | hcs
    · subst hceq
      simp only [migrateOlds]
      split
      · next hnone => exact absurd hnone hne
      · exact migrateOlds_log_mono dom uid (some i) cs reg _
          (List.mem_append_right _ (List.mem_singleton.mpr rfl))
    · simp only [migrateOlds]
      split
      · exact ih reg log hcs hne
      · exact ih reg (log ++ [(uid, c')]) hcs hne

theorem migrateOlds_fst_log_irrel (dom uid : String) (b : Option String) :
    ∀ (cs : List String) (reg : List RegEntry)
      (log log' : List (String × String)),
      (migrateOlds dom uid b cs reg log).1 = (migrateOlds dom uid b cs reg log').1 := by
  intro cs
  induction cs with
  | nil => intro reg log log'; rfl
  | cons c cs ih =>
    intro reg log log'
    simp only [migrateOlds]
    split
    · exact ih reg log log'
    · match b with
      | some _ => exact ih reg _ _
      | none => exact ih _ log log'

theorem eidsOf_migrateOlds (dom uid : String) (b : Option String) :
    ∀ (cs : List String) (reg : List RegEntry) (log : List (String × String)),
      eidsOf (migrateOlds dom uid b cs reg log).1 = eidsOf reg := by
  intro cs
  induction cs with
  | nil => intro reg log; rfl
  | cons c cs ih =>
    intro reg log
    simp only [migrateOlds]
    split
    · exact ih reg log
    · match b with
      | some _ => exact ih reg _
      | none => next e _ => exact (ih _ log).trans (eidsOf_updateEntity reg e uid)

theorem migrateOlds_no_match (dom uid : String) (b : Option String) :
    ∀ (cs : List String) (reg : List RegEntry) (log : List (String × String)),
      (∀ c ∈ cs, getEntityId reg dom c = none) →
      (migrateOlds dom uid b cs reg log).1 = reg := by
  intro cs
  induction cs with
  | nil => intro reg log _; rfl
  | cons c cs ih =>
    intro reg log h
    simp only [migrateOlds]
    split
    · exact ih reg log (fun c' hc' => h c' (List.mem_cons_of_mem c hc'))
    · next e hsome => exact absurd hsome (by simp [h c (List.mem_cons_self c cs)])

theorem mem_migrateOlds_pres (dom uid : String) (b : Option String) :
    ∀ (cs : List String) (reg : List RegEntry) (log : List (String × String))
      {x : RegEntry}, (eidsOf reg).Nodup → x ∈ reg → x.uid ∉ cs →
      x ∈ (migrateOlds dom uid b cs reg log).1 := by
  intro cs
  induction cs with
  | nil => intro reg log x _ hx _; exact hx
  | cons c cs ih =>
    intro reg log x hn hx hcs
    have hxc : x.uid ≠ c := fun h => hcs (h ▸ List.mem_cons_self c cs)
    have hxcs : x.uid ∉ cs := fun h => hcs (List.mem_cons_of_mem c h)
    simp only [migrateOlds]
    split
    · exact ih reg log hn hx hxcs
    · next e he =>
      match b with
      | some _ => exact ih reg _ hn hx hxcs
      | none =>
        obtain ⟨z, hz, hze, _, hzu⟩ := getEntityId_eq_some he
        have hxe : x.eid ≠ e := by
          intro hxeid
          have : x = z := eid_injOn hn hx hz (hxeid.trans hze.symm)
          exact hxc (this ▸ hzu)
        exact ih _ log (by rw [eidsOf_updateEntity]; exact hn)
          (mem_updateEntity_of_ne hx hxe uid) hxcs

theorem migrateOlds_creates_uid (dom uid : String) :
    ∀ (cs : List String) (reg : List RegEntry) (log : List (String × String)),
      ((∃ c ∈ cs, getEntityId reg dom c ≠ none)
        ∨ (∃ x ∈ reg, x.dom = dom ∧ x.uid = uid)) →
      ∃ y ∈ (migrateOlds dom uid none cs reg log).1, y.dom = dom ∧ y.uid = uid := by
  intro cs
  induction cs with
  | nil =>
    intro reg log h
    rcases h with ⟨c, hc, _⟩ | h
    · exact absurd hc (List.not_mem_nil c)
    · exact h
  | cons c cs ih =>
    intro reg log h
    simp only [migrateOlds]
    split
    · next hnone =>
      apply ih
      rcases h with ⟨c', hc', hne⟩ | h
      · rcases List.mem_cons.mp hc' with hceq | hcs
        · exact absurd (hceq ▸ hnone) hne
        · exact Or.inl ⟨c', hcs, hne⟩
      · exact Or.inr h
    · next e he =>
      apply ih
      exact Or.inr ⟨⟨e, dom, uid⟩, target_mem_updateEntity he uid, rfl, rfl⟩

theorem run_cons (E : MigEntity) (l : List MigEntity) (st : RegState) :
    migrateOldEntityUniqueIds (E :: l) st
      = migrateOldEntityUniqueIds l (migrateEntity st E) := rfl

theorem run_append (l₁ l₂ : List MigEntity) (st : RegState) :
    migrateOldEntityUniqueIds (l₁ ++ l₂) st
      = migrateOldEntityUniqueIds l₂ (migrateOldEntityUniqueIds l₁ st) := by
  simp [migrateOldEntityUniqueIds]

theorem eidsOf_migrateEntity (st : RegState) (E : MigEntity) :
    eidsOf (migrateEntity st E).ereg = eidsOf st.ereg :=
  eidsOf_migrateOlds _ _ _ _ _ _

theorem mem_migrateEntity_pres {st : RegState} {x : RegEntry}
    (hn : (eidsOf st.ereg).Nodup) (hx : x ∈ st.ereg) {E : MigEntity}
    (hcs : x.uid ∉ E.olds) : x ∈ (migrateEntity st E).ereg :=
  mem_migrateOlds_pres _ _ _ _ _ _ hn hx hcs

theorem eidsOf_run (l : List MigEntity) : ∀ st : RegState,
    eidsOf (migrateOldEntityUniqueIds l st).ereg = eidsOf st.ereg := by
  induction l with
  | nil => intro st; rfl
  | cons E l ih =>
    intro st
    rw [run_cons, ih, eidsOf_migrateEntity]

theorem mem_run_pres {l : List MigEntity} : ∀ {st : RegState} {x : RegEntry},
    (eidsOf st.ereg).Nodup → x ∈ st.ereg → (∀ E ∈ l, x.uid ∉ E.olds) →
    x ∈ (migrateOldEntityUniqueIds l st).ereg := by
  induction l with
  | nil => intro st x _ hx _; exact hx
  | cons E l ih =>
    intro st x hn hx h
    rw [run_cons]
    exact ih (by rw [eidsOf_migrateEntity]; exact hn)
      (mem_migrateEntity_pres hn hx (h E (List.mem_cons_self _ _)))
      (fun E' hE' => h E' (List.mem_cons_of_mem _ hE'))

theorem forall2_map_self {R : RegEntry → RegEntry → Prop} {f : RegEntry → RegEntry} :
    ∀ {l : List RegEntry}, (∀ x ∈ l, R x (f x)) → List.Forall₂ R l (l.map f) := by
  intro l
  induction l with
  | nil => intro _; exact List.Forall₂.nil
  | cons x l ih =>
    intro h
    exact List.Forall₂.cons (h x (List.mem_cons_self x l))
      (ih (fun y hy => h y (List.mem_cons_of_mem x hy)))

theorem evol_refl (U : List String) (reg : List RegEntry) :
    List.Forall₂ (EvolR U) reg reg :=
  List.forall₂_same.mpr (fun _ _ => ⟨rfl, rfl, Or.inl rfl⟩)

theorem evol_comp {U : List String} :
    ∀ {a b c : List RegEntry}, List.Forall₂ (EvolR U) a b →
      List.Forall₂ (EvolR U) b c → List.Forall₂ (EvolR U) a c := by
  intro a b c hab
  induction hab generalizing c with
  | nil =>
    intro hbc
    cases hbc
    exact List.Forall₂.nil
  | @cons x y _ _ hxy _ ih =>
    intro hbc
    cases hbc with
    | cons hyz htz =>
      refine List.Forall₂.cons ⟨hyz.1.trans hxy.1, hyz.2.1.trans hxy.2.1, ?_⟩ (ih htz)
      rcases hyz.2.2 with h | h
      · rcases hxy.2.2 with h' | h'
        · exact Or.inl (h.trans h')
        · exact Or.inr (h ▸ h')
      · exact Or.inr h

theorem evol_updateEntity {U : List String} {u : String} (hu : u ∈ U)
    (reg : List RegEntry) (e : String) :
    List.Forall₂ (EvolR U) reg (updateEntity reg e u) := by
  apply forall2_map_self
  intro x _
  by_cases hx : x.eid = e <;> simp [EvolR, hx, hu]

theorem evol_migrateOlds {U : List String} {uid : String} (hu : uid ∈ U)
    (dom : String) (b : Option String) :
    ∀ (cs : List String) (reg : List RegEntry) (log : List (String × String)),
      List.Forall₂ (EvolR U) reg (migrateOlds dom uid b cs reg log).1 := by
  intro cs
  induction cs with
  | nil => intro reg log; exact evol_refl U reg
  | cons c cs ih =>
    intro reg log
    simp only [migrateOlds]
    split
    · exact ih reg log
    · next e _ =>
      match b with
      | some _ => exact ih reg _
      | none => exact evol_comp (evol_updateEntity hu reg e) (ih _ log)

theorem evol_migrateEntity {U : List String} {E : MigEntity} (hu : E.uid ∈ U)
    (st : RegState) :
    List.Forall₂ (EvolR U) st.ereg (migrateEntity st E).ereg :=
  evol_migrateOlds hu E.dom _ E.olds st.ereg st.log

theorem evol_run {U : List String} {l : List MigEntity}
    (hu : ∀ E ∈ l, E.uid ∈ U) : ∀ st : RegState,
    List.Forall₂ (EvolR U) st.ereg (migrateOldEntityUniqueIds l st).ereg := by
  induction l with
  | nil => intro st; exact evol_refl U st.ereg
  | cons E l ih =>
    intro st
    rw [run_cons]
    exact evol_comp (evol_migrateEntity (hu E (List.mem_cons_self _ _)) st)
      (ih (fun E' hE' => hu E' (List.mem_cons_of_mem _ hE')) _)

theorem forall2_mem_right {R : RegEntry → RegEntry → Prop} :
    ∀ {a b : List RegEntry}, List.Forall₂ R a b → ∀ {x}, x ∈ b →
      ∃ y ∈ a, R y x := by
  intro a b h
  induction h with
  | nil => intro x hx; exact absurd hx (List.not_mem_nil x)
  | @cons y z _ _ hR _ ih =>
    intro x hx
    rcases List.mem_cons.mp hx with rfl | hx
    · exact ⟨y, List.mem_cons_self _ _, hR⟩
    · obtain ⟨w, hw, hRw⟩ := ih hx
      exact ⟨w, List.mem_cons_of_mem _ hw, hRw⟩

theorem getDevice_eq_none {dreg : List DevEntry} {devIdent : String} :
    getDevice dreg devIdent = none ↔ ∀ d ∈ dreg, ¬ d.devIdent = devIdent := by
  simp [getDevice, List.find?_eq_none]

theorem getDevice_eq_some {dreg : List DevEntry} {devIdent : String} {d : DevEntry}
    (h : getDevice dreg devIdent = some d) : d ∈ dreg ∧ d.devIdent = devIdent := by
  refine ⟨List.mem_of_find?_eq_some h, ?_⟩
  have hp := List.find?_some h
  simpa using hp

theorem ident_injOn {dreg : List DevEntry} (hn : (identsOf dreg).Nodup)
    {x y : DevEntry} (hx : x ∈ dreg) (hy : y ∈ dreg)
    (h : x.devIdent = y.devIdent) : x = y :=
  List.inj_on_of_nodup_map hn hx hy h

theorem did_injOn {dreg : List DevEntry} (hn : (didsOf dreg).Nodup)
    {x y : DevEntry} (hx : x ∈ dreg) (hy : y ∈ dreg)
    (h : x.did = y.did) : x = y :=
  List.inj_on_of_nodup_map hn hx hy h

theorem removeDevice_sublist (dreg : List DevEntry) (i : String) :
    (removeDevice dreg i).Sublist dreg := List.filter_sublist _

theorem mem_removeDevice_iff {dreg : List DevEntry} {i : String} {d : DevEntry} :
    d ∈ removeDevice dreg i ↔ d ∈ dreg ∧ ¬ d.did = i := by
  simp [removeDevice, List.mem_filter]

theorem removeOldDevs_sublist : ∀ (ids : List String) (dreg : List DevEntry),
    (removeOldDevs ids dreg).Sublist dreg := by
  intro ids
  induction ids with
  | nil => intro dreg; exact List.Sublist.refl _
  | cons oldId rest ih =>
    intro dreg
    simp only [removeOldDevs]
    split
    · exact ih dreg
    · exact (ih _).trans (removeDevice_sublist dreg _)

theorem getDevice_none_mono {dreg dreg' : List DevEntry}
    (hsub : dreg'.Sublist dreg) {devIdent : String}
    (h : getDevice dreg devIdent = none) : getDevice dreg' devIdent = none :=
  getDevice_eq_none.mpr (fun d hd => getDevice_eq_none.mp h d (hsub.subset hd))

theorem removeOldDevs_none : ∀ (ids : List String) (dreg : List DevEntry),
    (∀ oldId ∈ ids, getDevice dreg oldId = none) →
    removeOldDevs ids dreg = dreg := by
  intro ids
  induction ids with
  | nil => intro dreg _; rfl
  | cons oldId rest ih =>
    intro dreg h
    simp only [removeOldDevs]
    split
    · exact ih dreg (fun i hi => h i (List.mem_cons_of_mem _ hi))
    · next d hd =>
      exact absurd hd (by simp [h oldId (List.mem_cons_self _ _)])

theorem mem_removeOldDevs_iff : ∀ (ids : List String) (dreg : List DevEntry),
    (didsOf dreg).Nodup → (identsOf dreg).Nodup → ∀ {d : DevEntry},
    (d ∈ removeOldDevs ids dreg ↔ d ∈ dreg ∧ d.devIdent ∉ ids) := by
  intro ids
  induction ids with
  | nil =>
    intro dreg _ _ d
    simp [removeOldDevs]
  | cons i rest ih =>
    intro dreg hnd hni d
    simp only [removeOldDevs]
    split
    · next hnone =>
      rw [ih dreg hnd hni]
      constructor
      · rintro ⟨hd, hrest⟩
        refine ⟨hd, fun hmem => ?_⟩
        rcases List.mem_cons.mp hmem with heq | h
        · exact getDevice_eq_none.mp hnone d hd heq
        · exact hrest h
      · rintro ⟨hd, hmem⟩
        exact ⟨hd, fun h => hmem (List.mem_cons_of_mem _ h)⟩
    · next d0 hd0 =>
      obtain ⟨hd0mem, hd0id⟩ := getDevice_eq_some hd0
      rw [ih (removeDevice dreg d0.did)
        (List.Nodup.sublist ((removeDevice_sublist dreg d0.did).map _) hnd)
        (List.Nodup.sublist ((removeDevice_sublist dreg d0.did).map _) hni)]
      rw [mem_removeDevice_iff]
      constructor
      · rintro ⟨⟨hd, hdid⟩, hrest⟩
        refine ⟨hd, fun hmem => ?_⟩
        rcases List.mem_cons.mp hmem with heq | h
        · exact hdid (congrArg DevEntry.did
            (ident_injOn hni hd hd0mem (heq.trans hd0id.symm)))
        · exact hrest h
      · rintro ⟨hd, hmem⟩
        have hdid : ¬ d.did = d0.did := by
          intro h
          have heq : d = d0 := did_injOn hnd hd hd0mem h
          exact hmem (by rw [heq, hd0id]; exact List.mem_cons_self i rest)
        exact ⟨⟨hd, hdid⟩, fun h => hmem (List.mem_cons_of_mem _ h)⟩

theorem oldDevsOf_cons (E : MigEntity) (l : List MigEntity) :
    oldDevsOf (E :: l) = E.oldDevs ++ oldDevsOf l := rfl

theorem mem_run_dreg_iff (l : List MigEntity) : ∀ (st : RegState),
    (didsOf st.dreg).Nodup → (identsOf st.dreg).Nodup → ∀ {d : DevEntry},
    (d ∈ (migrateOldEntityUniqueIds l st).dreg
      ↔ d ∈ st.dreg ∧ d.devIdent ∉ oldDevsOf l) := by
  induction l with
  | nil =>
    intro st _ _ d
    simp [migrateOldEntityUniqueIds, oldDevsOf]
  | cons E l ih =>
    intro st hnd hni d
    rw [run_cons]
    have hsub := removeOldDevs_sublist E.oldDevs st.dreg
    have hde : (migrateEntity st E).dreg = removeOldDevs E.oldDevs st.dreg := rfl
    have hnd' : (didsOf (migrateEntity st E).dreg).Nodup := by
      rw [hde]; exact List.Nodup.sublist (hsub.map _) hnd
    have hni' : (identsOf (migrateEntity st E).dreg).Nodup := by
      rw [hde]; exact List.Nodup.sublist (hsub.map _) hni
    rw [ih (migrateEntity st E) hnd' hni', hde,
      mem_removeOldDevs_iff E.oldDevs st.dreg hnd hni, oldDevsOf_cons]
    simp only [List.mem_append, not_or]
    tauto

theorem run_dreg_clears {l : List MigEntity} {st : RegState}
    (hnd : (didsOf st.dreg).Nodup) (hni : (identsOf st.dreg).Nodup)
    {E : MigEntity} (hE : E ∈ l) {oldId : String} (hold : oldId ∈ E.oldDevs) :
    getDevice (migrateOldEntityUniqueIds l st).dreg oldId = none := by
  apply getDevice_eq_none.mpr
  intro d hd heq
  have h := (mem_run_dreg_iff l st hnd hni).mp hd
  exact h.2 (by rw [heq]; exact List.mem_flatMap.mpr ⟨E, hE, hold⟩)

theorem run_uid_present {l : List MigEntity} {st : RegState}
    (hne : (eidsOf st.ereg).Nodup)
    (hH : ∀ e ∈ l, ∀ g ∈ l, ¬ e.uid ∈ g.olds)
    {E : MigEntity} (hE : E ∈ l) {c : String} (hc : c ∈ E.olds)
    {x : RegEntry} (hx : x ∈ (migrateOldEntityUniqueIds l st).ereg)
    (hdom : x.dom = E.dom) (huid : x.uid = c) :
    ∃ w ∈ (migrateOldEntityUniqueIds l st).ereg,
      w.dom = E.dom ∧ w.uid = E.uid := by
  obtain ⟨pre, post, rfl⟩ := List.append_of_mem hE
  have hcU : ¬ c ∈ (pre ++ E :: post).map MigEntity.uid := by
    intro hmem
    obtain ⟨e', he', heq⟩ := List.mem_map.mp hmem
    exact hH e' he' E hE (heq.symm ▸ hc)
  have hEuid : E.uid ∈ (pre ++ E :: post).map MigEntity.uid :=
    List.mem_map_of_mem _ hE
  have hpostl : ∀ e' ∈ post, e' ∈ pre ++ E :: post := fun e' he' =>
    List.mem_append_right _ (List.mem_cons_of_mem _ he')
  have hpostU : ∀ e' ∈ post, e'.uid ∈ (pre ++ E :: post).map MigEntity.uid :=
    fun e' he' => List.mem_map_of_mem _ (hpostl e' he')
  have hEolds : ¬ E.uid ∈ E.olds := hH E hE E hE
  have hpostolds : ∀ e' ∈ post, ¬ E.uid ∈ e'.olds :=
    fun e' he' => hH E hE e' (hpostl e' he')
  rw [run_append, run_cons] at hx ⊢
  have hnA : (eidsOf (migrateOldEntityUniqueIds pre st).ereg).Nodup := by
    rw [eidsOf_run]; exact hne
  have hnB : (eidsOf (migrateEntity (migrateOldEntityUniqueIds pre st) E).ereg).Nodup := by
    rw [eidsOf_migrateEntity]; exact hnA
  have hAS := evol_comp
    (evol_migrateEntity hEuid (migrateOldEntityUniqueIds pre st))
    (evol_run hpostU (migrateEntity (migrateOldEntityUniqueIds pre st) E))
  obtain ⟨z, hz, hrel⟩ := forall2_mem_right hAS hx
  have hzu : z.uid = c := by
    rcases hrel.2.2 with h | h
    · exact h.symm.trans huid
    · exact absurd (huid ▸ h) hcU
  have hzd : z.dom = E.dom := hrel.2.1.symm.trans hdom
  cases hb : getEntityId (migrateOldEntityUniqueIds pre st).ereg E.dom E.uid with
  | some e =>
    obtain ⟨w, hw, _, hwd, hwu⟩ := getEntityId_eq_some hb
    have hw1 : w ∈ (migrateEntity (migrateOldEntityUniqueIds pre st) E).ereg :=
      mem_migrateEntity_pres hnA hw (by rw [hwu]; exact hEolds)
    refine ⟨w, mem_run_pres hnB hw1 ?_, hwd, hwu⟩
    intro e' he'
    rw [hwu]
    exact hpostolds e' he'
  | none =>
    have hBe : (migrateEntity (migrateOldEntityUniqueIds pre st) E).ereg
        = (migrateOlds E.dom E.uid
            (getEntityId (migrateOldEntityUniqueIds pre st).ereg E.dom E.uid)
            E.olds (migrateOldEntityUniqueIds pre st).ereg
            (migrateOldEntityUniqueIds pre st).log).1 := rfl
    rw [hb] at hBe
    have hmatch : ∃ c' ∈ E.olds,
        getEntityId (migrateOldEntityUniqueIds pre st).ereg E.dom c' ≠ none :=
      ⟨c, hc, getEntityId_ne_none_of_mem hz hzd hzu⟩
    have hByid := migrateOlds_creates_uid E.dom E.uid E.olds
      (migrateOldEntityUniqueIds pre st).ereg
      (migrateOldEntityUniqueIds pre st).log (Or.inl hmatch)
    rw [← hBe] at hByid
    obtain ⟨y, hy, hyd, hyu⟩ := hByid
    refine ⟨y, mem_run_pres hnB hy ?_, hyd, hyu⟩
    intro e' he'
    rw [hyu]
    exact hpostolds e' he'

theorem migrateEntity_noop {l : List MigEntity} {st : RegState}
    (hne : (eidsOf st.ereg).Nodup)
    (hnd : (didsOf st.dreg).Nodup) (hni : (identsOf st.dreg).Nodup)
    (hH : ∀ e ∈ l, ∀ g ∈ l, ¬ e.uid ∈ g.olds) {E : MigEntity} (hE : E ∈ l) :
    (migrateEntity (migrateOldEntityUniqueIds l st) E).ereg
      = (migrateOldEntityUniqueIds l st).ereg
    ∧ (migrateEntity (migrateOldEntityUniqueIds l st) E).dreg
      = (migrateOldEntityUniqueIds l st).dreg := by
  constructor
  · have hSe : (migrateEntity (migrateOldEntityUniqueIds l st) E).ereg
        = (migrateOlds E.dom E.uid
            (getEntityId (migrateOldEntityUniqueIds l st).ereg E.dom E.uid)
            E.olds (migrateOldEntityUniqueIds l st).ereg
            (migrateOldEntityUniqueIds l st).log).1 := rfl
    cases hb : getEntityId (migrateOldEntityUniqueIds l st).ereg E.dom E.uid with
    | some i => rw [hSe, hb, migrateOlds_fst_blocked]
    | none =>
      rw [hSe, hb]
      apply migrateOlds_no_match
      intro c hc
      cases hcc : getEntityId (migrateOldEntityUniqueIds l st).ereg E.dom c with
      | none => rfl
      | some e =>
        obtain ⟨x, hx, _, hxd, hxu⟩ := getEntityId_eq_some hcc
        obtain ⟨w, hw, hwd, hwu⟩ := run_uid_present hne hH hE hc hx hxd hxu
        exact absurd hb (getEntityId_ne_none_of_mem hw hwd hwu)
  · have hSd : (migrateEntity (migrateOldEntityUniqueIds l st) E).dreg
        = removeOldDevs E.oldDevs (migrateOldEntityUniqueIds l st).dreg := rfl
    rw [hSd]
    apply removeOldDevs_none
    intro oldId hold
    exact run_dreg_clears hnd hni hE hold

theorem migrateEntity_proj_congr {st₁ st₂ : RegState} (he : st₁.ereg = st₂.ereg)
    (hd : st₁.dreg = st₂.dreg) (E : MigEntity) :
    (migrateEntity st₁ E).ereg = (migrateEntity st₂ E).ereg
    ∧ (migrateEntity st₁ E).dreg = (migrateEntity st₂ E).dreg := by
  constructor
  · show (migrateOlds E.dom E.uid (getEntityId st₁.ereg E.dom E.uid)
        E.olds st₁.ereg st₁.log).1
      = (migrateOlds E.dom E.uid (getEntityId st₂.ereg E.dom E.uid)
        E.olds st₂.ereg st₂.log).1
    rw [he]
    exact migrateOlds_fst_log_irrel E.dom E.uid _ E.olds st₂.ereg st₁.log st₂.log
  · show removeOldDevs E.oldDevs st₁.dreg = removeOldDevs E.oldDevs st₂.dreg
    rw [hd]

theorem run_proj_const {S : RegState} :
    ∀ l' : List MigEntity,
      (∀ E ∈ l', (migrateEntity S E).ereg = S.ereg
        ∧ (migrateEntity S E).dreg = S.dreg) →
      ∀ st' : RegState, st'.ereg = S.ereg → st'.dreg = S.dreg →
      (migrateOldEntityUniqueIds l' st').ereg = S.ereg
      ∧ (migrateOldEntityUniqueIds l' st').dreg = S.dreg := by
  intro l'
  induction l' with
  | nil => intro _ st' he hd; exact ⟨he, hd⟩
  | cons E l' ih =>
    intro h st' he hd
    rw [run_cons]
    have hc := migrateEntity_proj_congr he hd E
    have hEstep := h E (List.mem_cons_self _ _)
    exact ih (fun E' hE' => h E' (List.mem_cons_of_mem _ hE')) _
      (hc.1.trans hEstep.1) (hc.2.trans hEstep.2)

/-- C1 (amended): over a well-formed registry (distinct entity ids,
distinct device registry ids and distinct device identifiers), running
the identity migration twice yields the same entity and device registry
state as running it once, provided no current unique ID of an entity in
the set occurs among the historical candidates of any entity in the
set; without that proviso a second run can perform further renames, see
the counterexample. The conflict log is not registry state and may grow
on the second run. -/
theorem migrate_idempotent (l : List MigEntity) (st : RegState)
    (hne : (eidsOf st.ereg).Nodup)
    (hnd : (didsOf st.dreg).Nodup)
    (hni : (identsOf st.dreg).Nodup)
    (hH : ∀ e ∈ l, ∀ g ∈ l, ¬ e.uid ∈ g.olds) :
    (migrateOldEntityUniqueIds l (migrateOldEntityUniqueIds l st)).ereg
      = (migrateOldEntityUniqueIds l st).ereg
    ∧ (migrateOldEntityUniqueIds l (migrateOldEntityUniqueIds l st)).dreg
      = (migrateOldEntityUniqueIds l st).dreg := by
  apply run_proj_const l _ _ rfl rfl
  intro E hE
  exact migrateEntity_noop hne hnd hni hH hE

/-- C1 counterexample: the current unique ID of the second entity
occurs among the historical candidates of the first. In the first run
the first entity finds no match and the second entity renames the only
entry to c0; in the second run the first entity now finds that entry
under its candidate c0 and renames it again, so the registry changes
between run one and run two. -/
theorem migrate_twice_mutates :
    (migrateOldEntityUniqueIds
        [⟨"switch", "U", ["c0"], [], "x"⟩, ⟨"switch", "c0", ["w"], [], "y"⟩]
        (migrateOldEntityUniqueIds
          [⟨"switch", "U", ["c0"], [], "x"⟩, ⟨"switch", "c0", ["w"], [], "y"⟩]
          ⟨[⟨"e1", "switch", "w"⟩], [], []⟩)).ereg
      ≠ (migrateOldEntityUniqueIds
        [⟨"switch", "U", ["c0"], [], "x"⟩, ⟨"switch", "c0", ["w"], [], "y"⟩]
        ⟨[⟨"e1", "switch", "w"⟩], [], []⟩).ereg := by decide

/-- Witness for migrate_idempotent at a concrete input. -/
theorem migrate_idempotent_witness :
    (migrateOldEntityUniqueIds [⟨"switch", "M-1", ["L-W-1"], ["L-W"], "M"⟩]
        (migrateOldEntityUniqueIds [⟨"switch", "M-1", ["L-W-1"], ["L-W"], "M"⟩]
          ⟨[⟨"e1", "switch", "L-W-1"⟩], [⟨"d1", "L-W"⟩], []⟩)).ereg
      = (migrateOldEntityUniqueIds [⟨"switch", "M-1", ["L-W-1"], ["L-W"], "M"⟩]
          ⟨[⟨"e1", "switch", "L-W-1"⟩], [⟨"d1", "L-W"⟩], []⟩).ereg
    ∧ (migrateOldEntityUniqueIds [⟨"switch", "M-1", ["L-W-1"], ["L-W"], "M"⟩]
        (migrateOldEntityUniqueIds [⟨"switch", "M-1", ["L-W-1"], ["L-W"], "M"⟩]
          ⟨[⟨"e1", "switch", "L-W-1"⟩], [⟨"d1", "L-W"⟩], []⟩)).dreg
      = (migrateOldEntityUniqueIds [⟨"switch", "M-1", ["L-W-1"], ["L-W"], "M"⟩]
          ⟨[⟨"e1", "switch", "L-W-1"⟩], [⟨"d1", "L-W"⟩], []⟩).dreg :=
  migrate_idempotent _ _ (by decide) (by decide) (by decide) (by decide)

/-- C2 (amended): when the current unique ID of an entity is already
claimed in the registry at the start of its processing, the candidate
loop leaves the entity registry unchanged (no rename, merge or delete)
and logs a duplicate conflict for every matching historical candidate.
The global conclusion of the claim fails: when the current unique ID is
unclaimed, several matching candidates are all renamed to it, see the
counterexample. -/
theorem migrate_conflict_skip (st : RegState) (E : MigEntity) (i : String)
    (hb : getEntityId st.ereg E.dom E.uid = some i) :
    (migrateEntity st E).ereg = st.ereg
    ∧ ∀ c ∈ E.olds, getEntityId st.ereg E.dom c ≠ none →
        (E.uid, c) ∈ (migrateEntity st E).log := by
  have hSe : (migrateEntity st E).ereg
      = (migrateOlds E.dom E.uid (getEntityId st.ereg E.dom E.uid)
          E.olds st.ereg st.log).1 := rfl
  have hSl : (migrateEntity st E).log
      = (migrateOlds E.dom E.uid (getEntityId st.ereg E.dom E.uid)
          E.olds st.ereg st.log).2 := rfl
  constructor
  · rw [hSe, hb]
    exact migrateOlds_fst_blocked E.dom E.uid i E.olds st.ereg st.log
  · intro c hc hnone
    rw [hSl, hb]
    exact migrateOlds_log_conflict E.dom E.uid i E.olds st.ereg st.log hc hnone

/-- C2 counterexample: one entity with unclaimed current unique ID U
and two matching historical candidates; both matched entries are
renamed to U, so migration produces two registry entries claiming the
same unique ID. -/
theorem migrate_duplicate_unique_ids :
    (migrateOldEntityUniqueIds [⟨"switch", "U", ["a", "b"], [], "d"⟩]
        ⟨[⟨"e1", "switch", "a"⟩, ⟨"e2", "switch", "b"⟩], [], []⟩).ereg
      = [⟨"e1", "switch", "U"⟩, ⟨"e2", "switch", "U"⟩]
    ∧ ¬ List.Pairwise (fun x y : RegEntry => ¬ x.uid = y.uid)
        (migrateOldEntityUniqueIds [⟨"switch", "U", ["a", "b"], [], "d"⟩]
          ⟨[⟨"e1", "switch", "a"⟩, ⟨"e2", "switch", "b"⟩], [], []⟩).ereg := by
  constructor <;> decide

/-- Witness for migrate_conflict_skip at a concrete input. -/
theorem migrate_conflict_skip_witness :
    (migrateEntity ⟨[⟨"e0", "switch", "U"⟩, ⟨"e1", "switch", "a"⟩], [], []⟩
        ⟨"switch", "U", ["a"], [], "d"⟩).ereg
      = [⟨"e0", "switch", "U"⟩, ⟨"e1", "switch", "a"⟩]
    ∧ ("U", "a") ∈ (migrateEntity
        ⟨[⟨"e0", "switch", "U"⟩, ⟨"e1", "switch", "a"⟩], [], []⟩
        ⟨"switch", "U", ["a"], [], "d"⟩).log := by
  have h := migrate_conflict_skip
    ⟨[⟨"e0", "switch", "U"⟩, ⟨"e1", "switch", "a"⟩], [], []⟩
    ⟨"switch", "U", ["a"], [], "d"⟩ "e0" (by decide)
  exact ⟨h.1, h.2 "a" (by decide) (by decide)⟩

/-- C5 (amended): the candidate list of the outlet switch is searched
in the fixed order pair-derived old unique ID first, then the suffixed
per-class variants; when the pre-search lookup of the current unique ID
found nothing, the entry matched by the first candidate is renamed to
the current unique ID. However the conflict check uses only that
pre-search lookup, so candidates after the first match are renamed as
well, see the counterexample. -/
theorem migrate_first_candidate_renamed (st : RegState) (E : MigEntity)
    (hn : (eidsOf st.ereg).Nodup) (hu : ¬ E.uid ∈ E.olds)
    (hb : getEntityId st.ereg E.dom E.uid = none)
    (c : String) (cs : List String) (hh : E.olds = c :: cs)
    (e : String) (hm : getEntityId st.ereg E.dom c = some e) :
    (⟨e, E.dom, E.uid⟩ : RegEntry) ∈ (migrateEntity st E).ereg
    ∧ ∀ s : PortEntityState, outletOldUniqueIds s
        = [oldEntityUniqueId s "", createUniqueId s true true ++ "-switch",
           createUniqueId s true true ++ "-outlet"] := by
  refine ⟨?_, fun s => rfl⟩
  have hSe : (migrateEntity st E).ereg
      = (migrateOlds E.dom E.uid (getEntityId st.ereg E.dom E.uid)
          E.olds st.ereg st.log).1 := rfl
  rw [hSe, hb, hh]
  simp only [migrateOlds, hm]
  apply mem_migrateOlds_pres
  · rw [eidsOf_updateEntity]
    exact hn
  · exact target_mem_updateEntity hm E.uid
  · intro hmem
    rw [hh] at hu
    exact hu (List.mem_cons_of_mem c hmem)

/-- C5 counterexample: with the current unique ID unclaimed, the
candidate after the first match is renamed too; after migration the
entry originally registered under the second candidate b carries the
current unique ID U. -/
theorem migrate_later_candidate_also_renamed :
    (⟨"e2", "switch", "U"⟩ : RegEntry) ∈
      (migrateOldEntityUniqueIds [⟨"switch", "U", ["a", "b"], [], "d2"⟩]
        ⟨[⟨"e1", "switch", "a"⟩, ⟨"e2", "switch", "b"⟩], [], []⟩).ereg := by
  decide

/-- Witness for migrate_first_candidate_renamed at a concrete input. -/
theorem migrate_first_candidate_renamed_witness :
    (⟨"e1", "switch", "U"⟩ : RegEntry) ∈
      (migrateEntity ⟨[⟨"e1", "switch", "a"⟩], [], []⟩
        ⟨"switch", "U", ["a"], [], "d"⟩).ereg
    ∧ ∀ s : PortEntityState, outletOldUniqueIds s
        = [oldEntityUniqueId s "", createUniqueId s true true ++ "-switch",
           createUniqueId s true true ++ "-outlet"] :=
  migrate_first_candidate_renamed ⟨[⟨"e1", "switch", "a"⟩], [], []⟩
    ⟨"switch", "U", ["a"], [], "d"⟩ (by decide) (by decide) (by decide)
    "a" [] rfl "e1" (by decide)

/-- C6 (amended): over a well-formed device registry, a device entry
survives the migration exactly when its identifier is not among the
historical device identifiers of the processed entities; the removal
performs no check of whether any entity still references the
identifier, see the counterexample. -/
theorem old_device_removal_unconditional (l : List MigEntity) (st : RegState)
    (hnd : (didsOf st.dreg).Nodup) (hni : (identsOf st.dreg).Nodup)
    {d : DevEntry} (hd : d ∈ st.dreg) :
    d ∈ (migrateOldEntityUniqueIds l st).dreg ↔ ¬ d.devIdent ∈ oldDevsOf l := by
  rw [mem_run_dreg_iff l st hnd hni]
  simp [hd]

/-- C6 counterexample: the device registered under identifier m is the
current device of the second entity, yet it is removed because m occurs
among the historical device identifiers of the first entity. -/
theorem old_device_removed_while_referenced :
    (∃ E ∈ [(⟨"switch", "U", [], ["m"], "x"⟩ : MigEntity),
        ⟨"switch", "V", [], [], "m"⟩], E.devId = "m")
    ∧ (⟨"d5", "m"⟩ : DevEntry) ∈
        (⟨[], [⟨"d5", "m"⟩], []⟩ : RegState).dreg
    ∧ ¬ (⟨"d5", "m"⟩ : DevEntry) ∈
        (migrateOldEntityUniqueIds
          [⟨"switch", "U", [], ["m"], "x"⟩, ⟨"switch", "V", [], [], "m"⟩]
          ⟨[], [⟨"d5", "m"⟩], []⟩).dreg := by
  decide

/-- Witness for old_device_removal_unconditional at a concrete input. -/
theorem old_device_removal_witness :
    (⟨"d2", "Z"⟩ : DevEntry) ∈
      (migrateOldEntityUniqueIds [⟨"switch", "M-1", [], ["L-W"], "M"⟩]
        ⟨[], [⟨"d1", "L-W"⟩, ⟨"d2", "Z"⟩], []⟩).dreg
    ↔ ¬ "Z" ∈ oldDevsOf [(⟨"switch", "M-1", [], ["L-W"], "M"⟩ : MigEntity)] :=
  old_device_removal_unconditional _ _ (by decide) (by decide) (by decide)

end MfiMPower
